import Mathlib

/-!
Verification of the `daemon` Go package (a parent/child process supervisor
with a length-prefixed framed pipe channel).  This file gives a shallow
embedding of the package's data structures and control flow and proves the
properties stated in its specification.

Conventions of the embedding:
* Go bytes are natural numbers, Go byte slices are `List Nat`.
* Go's `copy(dst[pos:], src)` builtin is `copyInto` (memmove semantics).
* Go `int` indices are `Nat` where the code keeps them non-negative, and
  `Int` where the code relies on going negative (`rebootTimes`).
* OS interaction (pipe reads/writes, process spawn/exit) is modelled by
  explicit environment parameters; pipes deliver bytes in order.
-/

set_option maxRecDepth 10000

namespace daemon

/-- Go's `copy(dst[pos:], src)`: overwrite `dst` from position `pos` with as
many bytes of `src` as fit, leaving the length of `dst` unchanged.  `src` is
read before `dst` is written (memmove semantics, as Go's `copy`). -/
def copyInto (dst : List Nat) (pos : Nat) (src : List Nat) : List Nat :=
  dst.take pos ++ src.take (dst.length - pos) ++ dst.drop (pos + src.length)

/-- The `buffer` struct of the package (file `buffer.go`): a growable byte
array with independent read and write cursors.  `Internal` models the Go
slice (whose length always equals its capacity here, since it is only ever
produced by `make([]byte, n)`). -/
structure buffer where
  Internal : List Nat
  readIndex : Nat
  writeIndex : Nat
  markedReadIndex : Nat
  markedWriteIndex : Nat
deriving DecidableEq, Repr

/-- Model of `NewBuffer`: a zeroed array of the given capacity, cursors at 0. -/
def NewBuffer (capacity : Nat) : buffer :=
  ⟨List.replicate capacity 0, 0, 0, 0, 0⟩

/-- Model of `buffer.growth`: if `writeIndex + needSize > cap(Internal)`, reallocate to
`2*cap` (or to `needSize` when the capacity is 0) and copy the old contents
(`copy(copied, Internal)` copies `min(size, len)` bytes, the rest is zero). -/
def buffer.growth (object : buffer) (needSize : Nat) : buffer :=
  if object.writeIndex + needSize > object.Internal.length then
    let size := 2 * object.Internal.length
    let size := if size = 0 then needSize else size
    { object with
        Internal := object.Internal.take size ++
          List.replicate (size - object.Internal.length) 0 }
  else object

/-- Model of `buffer.IsEmpty`. -/
def buffer.IsEmpty (object : buffer) : Bool :=
  object.readIndex = object.writeIndex

/-- Model of `buffer.WriteableBytes = cap(Internal) - writeIndex`. -/
def buffer.WriteableBytes (object : buffer) : Nat :=
  object.Internal.length - object.writeIndex

/-- Model of `buffer.ReadableBytes = writeIndex - readIndex`. -/
def buffer.ReadableBytes (object : buffer) : Nat :=
  object.writeIndex - object.readIndex

/-- Model of `buffer.GetReadIndex`. -/
def buffer.GetReadIndex (object : buffer) : Nat := object.readIndex

/-- Model of `buffer.GetWriteIndex`. -/
def buffer.GetWriteIndex (object : buffer) : Nat := object.writeIndex

/-- Model of `buffer.SetReadIndex`. -/
def buffer.SetReadIndex (object : buffer) (index : Nat) : buffer :=
  { object with readIndex := index }

/-- Model of `buffer.SetWriteIndex`. -/
def buffer.SetWriteIndex (object : buffer) (index : Nat) : buffer :=
  { object with writeIndex := index }

/-- Model of `buffer.MarkReadIndex`. -/
def buffer.MarkReadIndex (object : buffer) : buffer :=
  { object with markedReadIndex := object.readIndex }

/-- Model of `buffer.MarkWriteIndex`. -/
def buffer.MarkWriteIndex (object : buffer) : buffer :=
  { object with markedWriteIndex := object.writeIndex }

/-- Model of `buffer.ResetReadIndex`. -/
def buffer.ResetReadIndex (object : buffer) : buffer :=
  { object with readIndex := object.markedReadIndex, markedReadIndex := 0 }

/-- Model of `buffer.ResetWriteIndex`. -/
def buffer.ResetWriteIndex (object : buffer) : buffer :=
  { object with writeIndex := object.markedWriteIndex, markedWriteIndex := 0 }

/-- Model of `buffer.WriteBytes`: grow for `len(bytes)`, then
`copy(Internal[writeIndex:], bytes)` and advance the write cursor by the
full `len(bytes)` (even when the copy was truncated). -/
def buffer.WriteBytes (object : buffer) (bytes : List Nat) : buffer :=
  let object := object.growth bytes.length
  { object with
      Internal := copyInto object.Internal object.writeIndex bytes,
      writeIndex := object.writeIndex + bytes.length }

/-- Model of `buffer.Slice size = Internal[readIndex : readIndex+size]` (the view the
reader peeks at without consuming it). -/
def buffer.Slice (object : buffer) (size : Nat) : List Nat :=
  (object.Internal.drop object.readIndex).take size

/-- Model of `buffer.DiscardReadBytes`: `copy(Internal, Internal[readIndex:writeIndex])`,
then `writeIndex -= readIndex; readIndex = 0` (compaction). -/
def buffer.DiscardReadBytes (object : buffer) : buffer :=
  { object with
      Internal := copyInto object.Internal 0
        ((object.Internal.drop object.readIndex).take
          (object.writeIndex - object.readIndex)),
      writeIndex := object.writeIndex - object.readIndex,
      readIndex := 0 }

/-- Model of `binary.BigEndian.PutUint32` of `v` (as `uint32`, i.e. modulo `2^32`). -/
def PutUint32 (v : Nat) : List Nat :=
  [v / 2 ^ 24 % 256, v / 2 ^ 16 % 256, v / 2 ^ 8 % 256, v % 256]

/-- Model of `binary.BigEndian.Uint32`: decode the first four bytes, big-endian. -/
def BigEndianUint32 (l : List Nat) : Nat :=
  match l with
  | a :: b :: c :: d :: _ => ((a * 256 + b) * 256 + c) * 256 + d
  | _ => 0

theorem length_PutUint32 (v : Nat) : (PutUint32 v).length = 4 := rfl

theorem BigEndianUint32_PutUint32 (v : Nat) (t : List Nat) (h : v < 2 ^ 32) :
    BigEndianUint32 (PutUint32 v ++ t) = v := by
  simp only [PutUint32, List.cons_append, List.nil_append, BigEndianUint32]
  omega

/-- C1: the specified growth policy (`max(2*capacity, writeCursor+|b|)`) is
not what the code does.  On a buffer of capacity 1, `WriteBytes [1,2,3]`
needs 3 writable bytes but `growth` only reallocates to `2*capacity = 2`
(not `max(2*1, 0+3) = 3`), so the copy silently drops the third byte and the
write cursor (3) ends up past the array's capacity (2). -/
theorem C1_writeBytes_growth_bug :
    (NewBuffer 1).WriteableBytes < 3 ∧
    ((NewBuffer 1).WriteBytes [1, 2, 3]).Internal.length = 2 ∧
    (2 : Nat) ≠ max (2 * 1) (0 + 3) ∧
    ((NewBuffer 1).WriteBytes [1, 2, 3]).writeIndex = 3 ∧
    ((NewBuffer 1).WriteBytes [1, 2, 3]).Internal.length <
      ((NewBuffer 1).WriteBytes [1, 2, 3]).writeIndex ∧
    ((NewBuffer 1).WriteBytes [1, 2, 3]).Internal = [1, 2] := by
  decide

/-- C9: for every buffer state with `readCursor ≤ writeCursor ≤ capacity`,
`DiscardReadBytes` (compaction) preserves `ReadableBytes`, zeroes the read
cursor, sets the write cursor to the old `ReadableBytes`, and the first
`ReadableBytes` bytes of the array afterwards are exactly the bytes that
`Slice (ReadableBytes)` (peek) returned before the call. -/
theorem C9_discardReadBytes_compacts (st : buffer)
    (h1 : st.readIndex ≤ st.writeIndex) (h2 : st.writeIndex ≤ st.Internal.length) :
    st.DiscardReadBytes.ReadableBytes = st.ReadableBytes ∧
    st.DiscardReadBytes.readIndex = 0 ∧
    st.DiscardReadBytes.writeIndex = st.ReadableBytes ∧
    st.DiscardReadBytes.Internal.take st.ReadableBytes =
      st.Slice st.ReadableBytes := by
  refine ⟨?_, rfl, rfl, ?_⟩
  · simp [buffer.DiscardReadBytes, buffer.ReadableBytes]
  · have hlen : ((st.Internal.drop st.readIndex).take
        (st.writeIndex - st.readIndex)).length = st.writeIndex - st.readIndex := by
      simp
      omega
    simp only [buffer.DiscardReadBytes, buffer.ReadableBytes, buffer.Slice,
      copyInto, List.take_zero, Nat.sub_zero, Nat.zero_add, List.nil_append,
      List.drop_zero]
    have h3 : List.take st.Internal.length
        ((st.Internal.drop st.readIndex).take (st.writeIndex - st.readIndex)) =
        (st.Internal.drop st.readIndex).take (st.writeIndex - st.readIndex) :=
      List.take_of_length_le (by rw [hlen]; omega)
    rw [h3, List.take_left' hlen]

/-- Witness for C9 at a concrete buffer: `⟨[1,2,3,4,5], 2, 4⟩` compacts to
readable bytes `[3,4]` at the front. -/
theorem C9_discardReadBytes_compacts_witness :
    ((⟨[1, 2, 3, 4, 5], 2, 4, 0, 0⟩ : buffer).DiscardReadBytes.ReadableBytes =
        (⟨[1, 2, 3, 4, 5], 2, 4, 0, 0⟩ : buffer).ReadableBytes ∧
      (⟨[1, 2, 3, 4, 5], 2, 4, 0, 0⟩ : buffer).DiscardReadBytes.readIndex = 0 ∧
      (⟨[1, 2, 3, 4, 5], 2, 4, 0, 0⟩ : buffer).DiscardReadBytes.writeIndex =
        (⟨[1, 2, 3, 4, 5], 2, 4, 0, 0⟩ : buffer).ReadableBytes ∧
      (⟨[1, 2, 3, 4, 5], 2, 4, 0, 0⟩ : buffer).DiscardReadBytes.Internal.take
          (⟨[1, 2, 3, 4, 5], 2, 4, 0, 0⟩ : buffer).ReadableBytes =
        (⟨[1, 2, 3, 4, 5], 2, 4, 0, 0⟩ : buffer).Slice
          (⟨[1, 2, 3, 4, 5], 2, 4, 0, 0⟩ : buffer).ReadableBytes) :=
  C9_discardReadBytes_compacts ⟨[1, 2, 3, 4, 5], 2, 4, 0, 0⟩
    (by decide) (by decide)

/-- State of an `XPipe` (file `pipe.go`): the atomic `closed` flag and the
two half-pipes it may own.  A half-pipe is modelled as present (`some ()`)
or already released (`none`), matching the `nil` checks of the source. -/
structure XPipe where
  closed : Bool
  ReadPipe : Option Unit
  WritePipe : Option Unit
deriving DecidableEq, Repr

/-- Model of `NewXPipe`: an open pipe owning both halves. -/
def NewXPipe : XPipe :=
  ⟨false, some (), some ()⟩

/-- Model of `XPipe.IsClosed`. -/
def XPipe.IsClosed (object : XPipe) : Bool :=
  object.closed

/-- Model of `XPipe.Close`: the compare-and-swap on `closed` makes every call after
the first a no-op returning `nil`; the first call closes whichever half-pipes
are owned and sets them to `nil` (closing an owned OS pipe succeeds, so the
early-error returns of the source are never taken). -/
def XPipe.Close (object : XPipe) : XPipe × Option String :=
  if object.closed then (object, none)
  else
    let object := { object with closed := true }
    let object := match object.ReadPipe with
      | some _ => { object with ReadPipe := none }
      | none => object
    let object := match object.WritePipe with
      | some _ => { object with WritePipe := none }
      | none => object
    (object, none)

/-- Iterate `XPipe.Close` n times (for the idempotency claim). -/
def XPipe.CloseN (object : XPipe) : Nat → XPipe
  | 0 => object
  | n + 1 => ((object.Close).1).CloseN n

/-- One call of `WritePipe.Write` inside `writeEmpty`, in the error-free
case: the pipe accepts between 1 and `len(raw)` bytes; the environment's
requested size `s` is clamped to that range. -/
def pipeAccept (s : Nat) (rawLen : Nat) : Nat :=
  min (max 1 s) rawLen

/-- Model of `XPipe.writeEmpty`: the partial-write retry loop.  The environment
schedule `sched` gives, per `Write` call, either `some s` (a successful
partial write of `pipeAccept s` bytes) or `none` (a non-retryable error, on
which the loop returns at once).  An exhausted schedule accepts everything
remaining in one call.  Returns the bytes actually delivered to the pipe and
whether the loop completed without error. -/
def XPipe.writeEmpty (sched : List (Option Nat)) (raw : List Nat) :
    List Nat × Bool :=
  match raw with
  | [] => ([], true)
  | _ :: _ =>
    match sched with
    | [] => (raw, true)
    | none :: _ => ([], false)
    | some s :: rest =>
      let n := pipeAccept s raw.length
      let d := XPipe.writeEmpty rest (raw.drop n)
      (raw.take n ++ d.1, d.2)

/-- Model of `XPipe.Write`: fails if the channel is closed, otherwise writes the
4-byte big-endian length header and then the payload, each through
`writeEmpty` with its own environment schedule.  Returns the bytes delivered
to the pipe and the error result. -/
def XPipe.Write (closed : Bool) (sched1 sched2 : List (Option Nat))
    (raw : List Nat) : List Nat × Option String :=
  if closed then ([], some "XPipe closed")
  else
    let header := PutUint32 raw.length
    let d1 := XPipe.writeEmpty sched1 header
    if d1.2 then
      let d2 := XPipe.writeEmpty sched2 raw
      (d1.1 ++ d2.1, if d2.2 then none else some "write error")
    else (d1.1, some "write error")

theorem writeEmpty_delivers (sched : List (Option Nat)) (raw : List Nat)
    (h : ∀ x ∈ sched, x ≠ none) :
    XPipe.writeEmpty sched raw = (raw, true) := by
  induction sched generalizing raw with
  | nil => cases raw <;> simp [XPipe.writeEmpty]
  | cons s rest ih =>
    cases raw with
    | nil => simp [XPipe.writeEmpty]
    | cons b bs =>
      cases s with
      | none => exact absurd rfl (h none (List.mem_cons_self _ _))
      | some s =>
        have hrest : ∀ x ∈ rest, x ≠ none := fun x hx =>
          h x (List.mem_cons_of_mem _ hx)
        simp only [XPipe.writeEmpty, ih _ hrest]
        simp [List.take_append_drop]

theorem write_open_delivers (raw : List Nat)
    (sched1 sched2 : List (Option Nat))
    (h1 : ∀ x ∈ sched1, x ≠ none) (h2 : ∀ x ∈ sched2, x ≠ none) :
    XPipe.Write false sched1 sched2 raw =
      (PutUint32 raw.length ++ raw, none) := by
  rw [XPipe.Write]
  simp [writeEmpty_delivers _ _ h1, writeEmpty_delivers _ _ h2]

/-- C7: writing on a closed channel returns an error having delivered
nothing; on an open channel, for every error-free schedule of partial
writes, exactly the 4 header bytes (the payload length, big-endian uint32)
followed by the payload bytes are delivered, with no error. -/
theorem C7_write_framing (raw : List Nat) (sched1 sched2 : List (Option Nat))
    (h1 : ∀ x ∈ sched1, x ≠ none) (h2 : ∀ x ∈ sched2, x ≠ none) :
    XPipe.Write true sched1 sched2 raw = ([], some "XPipe closed") ∧
    XPipe.Write false sched1 sched2 raw =
      (PutUint32 raw.length ++ raw, none) :=
  ⟨rfl, write_open_delivers raw sched1 sched2 h1 h2⟩

/-- Witness for C7: payload `[7,8]` with a schedule that splits the header
into partial writes of 1 and 3 bytes. -/
theorem C7_write_framing_witness :
    XPipe.Write true [some 1, some 3] [some 5] [7, 8] =
      ([], some "XPipe closed") ∧
    XPipe.Write false [some 1, some 3] [some 5] [7, 8] =
      (PutUint32 2 ++ [7, 8], none) :=
  C7_write_framing [7, 8] [some 1, some 3] [some 5]
    (by decide) (by decide)

/-- C8: `Close` always returns without error; after any call `IsClosed`
reports true; a call on an already-closed pipe is a no-op; the first call on
a fresh pipe closes (releases) both half-pipes; and iterating `Close` any
positive number of times still reports closed. -/
theorem C8_close_idempotent (st : XPipe) (n : Nat) (h : st.closed = true) :
    (XPipe.Close st).2 = none ∧
    (XPipe.Close st).1.IsClosed = true ∧
    XPipe.Close st = (st, none) ∧
    (XPipe.Close NewXPipe).1.ReadPipe = none ∧
    (XPipe.Close NewXPipe).1.WritePipe = none ∧
    XPipe.IsClosed (XPipe.CloseN NewXPipe (n + 1)) = true := by
  have hc : XPipe.Close st = (st, none) := by
    rw [XPipe.Close]
    simp [h]
  have step : ∀ m (x : XPipe), x.closed = true →
      XPipe.IsClosed (XPipe.CloseN x m) = true := by
    intro m
    induction m with
    | zero => intro x hx; simpa [XPipe.CloseN, XPipe.IsClosed] using hx
    | succ k ih =>
      intro x hx
      have hx2 : XPipe.Close x = (x, none) := by
        rw [XPipe.Close]
        simp [hx]
      rw [XPipe.CloseN, hx2]
      exact ih x hx
  refine ⟨by rw [hc], ?_, hc, rfl, rfl, ?_⟩
  · rw [hc]
    simpa [XPipe.IsClosed] using h
  · exact step n (XPipe.Close NewXPipe).1 (by rfl)

/-- Witness for C8: a concrete already-closed pipe state and `n = 2`. -/
theorem C8_close_idempotent_witness :
    (XPipe.Close ⟨true, none, none⟩).2 = none ∧
    (XPipe.Close ⟨true, none, none⟩).1.IsClosed = true ∧
    XPipe.Close ⟨true, none, none⟩ = (⟨true, none, none⟩, none) ∧
    (XPipe.Close NewXPipe).1.ReadPipe = none ∧
    (XPipe.Close NewXPipe).1.WritePipe = none ∧
    XPipe.IsClosed (XPipe.CloseN NewXPipe (2 + 1)) = true :=
  C8_close_idempotent ⟨true, none, none⟩ 2 (by decide)

/-- The inner loop of `XPipe.Read` (`for 4 <= readBuf.ReadableBytes()`):
while at least 4 bytes are buffered, decode the big-endian length; stop if
the frame is not yet complete; otherwise step past the header, hand the
payload view to the callback, and — if it asks to continue — step past the
payload and compact the buffer.  Returns the payloads the callback was
invoked on, the final buffer, and the loop flag. -/
def readFrames (callback : List Nat → Bool) (readBuf : buffer) :
    List (List Nat) × buffer × Bool :=
  if h4 : 4 ≤ readBuf.ReadableBytes then
    let chunkSize := BigEndianUint32 (readBuf.Slice 4)
    if hch : chunkSize + 4 > readBuf.ReadableBytes then ([], readBuf, true)
    else
      let readBuf1 := readBuf.SetReadIndex (readBuf.GetReadIndex + 4)
      let payload := readBuf1.Slice chunkSize
      let flag := callback payload
      if flag then
        let readBuf2 :=
          (readBuf1.SetReadIndex (readBuf1.GetReadIndex + chunkSize)).DiscardReadBytes
        let r := readFrames callback readBuf2
        (payload :: r.1, r.2.1, r.2.2)
      else ([payload], readBuf1, false)
  else ([], readBuf, true)
termination_by readBuf.ReadableBytes
decreasing_by
  simp only [buffer.ReadableBytes, buffer.DiscardReadBytes, buffer.SetReadIndex,
    buffer.GetReadIndex] at h4 hch ⊢
  omega

/-- The outer loop of `XPipe.Read`: pull bytes from the pipe into
`Internal[writeIndex:]` and run the inner frame loop, until the callback
stops the read, the pipe hits end-of-file, or a read returns no bytes.
The OS pipe is modelled deterministically: a read into a zero-length slice
returns `(0, nil)`; a read on an exhausted stream returns end-of-file (the
source then returns the `io.EOF` it stored in `err`); otherwise the read
delivers `min(space, len(stream))` bytes. -/
def readPump (callback : List Nat → Bool) (readBuf : buffer)
    (stream : List Nat) : List (List Nat) × Option String :=
  let space := readBuf.Internal.length - readBuf.GetWriteIndex
  if hs : space = 0 then ([], none)
  else
    match stream with
    | [] => ([], some "EOF")
    | y :: ys =>
      let n := min space (y :: ys).length
      let readBuf1 := { readBuf with
        Internal := copyInto readBuf.Internal readBuf.writeIndex ((y :: ys).take n) }
      let readBuf2 := readBuf1.SetWriteIndex (readBuf1.GetWriteIndex + n)
      let r := readFrames callback readBuf2
      if r.2.2 then
        let rest := readPump callback r.2.1 ((y :: ys).drop n)
        (r.1 ++ rest.1, rest.2)
      else (r.1, none)
termination_by stream.length
decreasing_by
  simp only [List.length_drop, List.length_cons]
  omega

/-- Model of `XPipe.Read`: fails at once on a closed channel, otherwise streams the
byte stream through a fresh `NewBuffer(1 << 16)` via the two loops above. -/
def XPipe.Read (closed : Bool) (callback : List Nat → Bool)
    (stream : List Nat) : List (List Nat) × Option String :=
  if closed then ([], some "XPipe closed")
  else readPump callback (NewBuffer (2 ^ 16)) stream

/-- The byte stream produced by writing the given payloads back-to-back
through `XPipe.Write` on an open channel (one frame per payload). -/
def writtenFrames (payloads : List (List Nat)) : List Nat :=
  (payloads.map fun p => (XPipe.Write false [] [] p).1).flatten

theorem writtenFrames_nil : writtenFrames [] = [] := rfl

theorem writtenFrames_cons (p : List Nat) (ps : List (List Nat)) :
    writtenFrames (p :: ps) =
      PutUint32 p.length ++ p ++ writtenFrames ps := by
  have hw : XPipe.Write false [] [] p = (PutUint32 p.length ++ p, none) :=
    write_open_delivers p [] [] (by simp) (by simp)
  simp [writtenFrames, hw]

theorem copyInto_zero (dst src : List Nat) :
    copyInto dst 0 src = src.take dst.length ++ dst.drop src.length := by
  simp [copyInto]

theorem BigEndianUint32_PutUint32' (v : Nat) (h : v < 2 ^ 32) :
    BigEndianUint32 (PutUint32 v) = v := by
  simpa using BigEndianUint32_PutUint32 v [] h

theorem readFrames_lt4 (callback : List Nat → Bool) (b : buffer)
    (h : b.ReadableBytes < 4) : readFrames callback b = ([], b, true) := by
  rw [readFrames, dif_neg (by omega)]

theorem readFrames_incomplete (callback : List Nat → Bool) (b : buffer)
    (h4 : 4 ≤ b.ReadableBytes)
    (h : BigEndianUint32 (b.Slice 4) + 4 > b.ReadableBytes) :
    readFrames callback b = ([], b, true) := by
  rw [readFrames, dif_pos h4]
  dsimp only
  rw [dif_pos h]

theorem readPump_full (callback : List Nat → Bool) (b : buffer)
    (stream : List Nat) (h : b.Internal.length - b.GetWriteIndex = 0) :
    readPump callback b stream = ([], none) := by
  rw [readPump.eq_def]
  dsimp only
  rw [dif_pos h]

theorem readPump_eof (callback : List Nat → Bool) (b : buffer)
    (h : ¬b.Internal.length - b.GetWriteIndex = 0) :
    readPump callback b [] = ([], some "EOF") := by
  rw [readPump.eq_def]
  dsimp only
  rw [dif_neg h]


theorem readFrames_step (callback : List Nat → Bool) (b : buffer)
    (h4 : 4 ≤ b.ReadableBytes)
    (hch : ¬BigEndianUint32 (b.Slice 4) + 4 > b.ReadableBytes)
    (hcb : callback ((b.SetReadIndex (b.GetReadIndex + 4)).Slice
      (BigEndianUint32 (b.Slice 4))) = true) :
    readFrames callback b =
      ((b.SetReadIndex (b.GetReadIndex + 4)).Slice (BigEndianUint32 (b.Slice 4)) ::
        (readFrames callback (((b.SetReadIndex (b.GetReadIndex + 4)).SetReadIndex
          ((b.SetReadIndex (b.GetReadIndex + 4)).GetReadIndex +
            BigEndianUint32 (b.Slice 4))).DiscardReadBytes)).1,
       (readFrames callback (((b.SetReadIndex (b.GetReadIndex + 4)).SetReadIndex
          ((b.SetReadIndex (b.GetReadIndex + 4)).GetReadIndex +
            BigEndianUint32 (b.Slice 4))).DiscardReadBytes)).2.1,
       (readFrames callback (((b.SetReadIndex (b.GetReadIndex + 4)).SetReadIndex
          ((b.SetReadIndex (b.GetReadIndex + 4)).GetReadIndex +
            BigEndianUint32 (b.Slice 4))).DiscardReadBytes)).2.2) := by
  rw [readFrames, dif_pos h4]
  dsimp only
  rw [dif_neg hch, if_pos hcb]

theorem readPump_cons (callback : List Nat → Bool) (b : buffer)
    (y : Nat) (ys : List Nat)
    (h : ¬b.Internal.length - b.GetWriteIndex = 0) :
    readPump callback b (y :: ys) =
      (let n := min (b.Internal.length - b.GetWriteIndex) (y :: ys).length
       let readBuf1 : buffer := { b with
         Internal := copyInto b.Internal b.writeIndex ((y :: ys).take n) }
       let readBuf2 := readBuf1.SetWriteIndex (readBuf1.GetWriteIndex + n)
       let r := readFrames callback readBuf2
       if r.2.2 then
         let rest := readPump callback r.2.1 ((y :: ys).drop n)
         (r.1 ++ rest.1, rest.2)
       else (r.1, none)) := by
  rw [readPump.eq_def]
  dsimp only
  rw [dif_neg h]

theorem BigEndianUint32_take4 (l : List Nat) :
    BigEndianUint32 (l.take 4) = BigEndianUint32 l := by
  match l with
  | [] => rfl
  | [_] => rfl
  | [_, _] => rfl
  | [_, _, _] => rfl
  | _ :: _ :: _ :: _ :: _ => rfl

theorem copyInto_zero_full (dst s : List Nat) (h : dst.length ≤ s.length) :
    copyInto dst 0 (s.take dst.length) = s.take dst.length := by
  rw [copyInto_zero]
  rw [List.take_of_length_le (by rw [List.length_take]; omega),
    List.drop_eq_nil_of_le (by rw [List.length_take]; omega)]
  simp

theorem BigEndianUint32_take_of_le (l : List Nat) (n : Nat) (h : 4 ≤ n) :
    BigEndianUint32 (l.take n) = BigEndianUint32 l := by
  rw [← BigEndianUint32_take4 (l.take n), List.take_take, min_eq_left h,
    BigEndianUint32_take4]

theorem NewBuffer_eq (c : Nat) :
    NewBuffer c = ⟨List.replicate c 0, 0, 0, 0, 0⟩ := rfl

theorem readPump_fill_incomplete (vis : List Nat → Bool) (stream I0 : List Nat)
    (hI : I0.length = 65536)
    (h1 : 65536 ≤ stream.length)
    (h2 : BigEndianUint32 stream + 4 > 65536) :
    readPump vis ⟨I0, 0, 0, 0, 0⟩ stream = ([], none) := by
  match stream, h1, h2 with
  | y :: ys, h1, h2 =>
  rw [readPump_cons _ _ _ _ (by simp [buffer.GetWriteIndex, hI])]
  dsimp only
  simp only [buffer.GetWriteIndex, hI, Nat.sub_zero]
  have hn : (65536 : Nat) ⊓ (y :: ys).length = 65536 := by
    rw [inf_eq_min]
    exact min_eq_left h1
  rw [hn]
  have hcopy : copyInto I0 0 ((y :: ys).take 65536) = (y :: ys).take 65536 := by
    conv in (List.take 65536 (y :: ys)) => rw [← hI]
    rw [← hI]
    exact copyInto_zero_full I0 (y :: ys) (by omega)
  rw [hcopy]
  simp only [buffer.SetWriteIndex, Nat.zero_add]
  have hr : readFrames vis
      ⟨List.take 65536 (y :: ys), 0, 65536, 0, 0⟩ =
      ([], ⟨List.take 65536 (y :: ys), 0, 65536, 0, 0⟩, true) := by
    refine readFrames_incomplete vis _ ?_ ?_
    · simp only [buffer.ReadableBytes]
      omega
    · simp only [buffer.Slice, buffer.ReadableBytes, List.drop_zero]
      rw [BigEndianUint32_take4, BigEndianUint32_take_of_le _ _ (by omega)]
      omega
  rw [hr]
  have hfull : (⟨List.take 65536 (y :: ys), 0, 65536, 0, 0⟩ :
      buffer).Internal.length -
      (⟨List.take 65536 (y :: ys), 0, 65536, 0, 0⟩ :
        buffer).GetWriteIndex = 0 := by
    simp only [buffer.GetWriteIndex, List.length_take]
    rw [min_eq_left h1, Nat.sub_self]
  rw [readPump_full _ _ _ hfull]
  simp

theorem read_oversized (vis : List Nat → Bool)
    (payload rest : List Nat)
    (hlen : 2 ^ 16 < payload.length + 4) (hbound : payload.length < 2 ^ 32) :
    XPipe.Read false vis ((XPipe.Write false [] [] payload).1 ++ rest) =
      ([], none) := by
  rw [write_open_delivers payload [] [] (by simp) (by simp)]
  show readPump vis (NewBuffer (2 ^ 16))
    ((PutUint32 payload.length ++ payload) ++ rest) = ([], none)
  rw [NewBuffer_eq]
  refine readPump_fill_incomplete vis _ _ ?_ ?_ ?_
  · rw [List.length_replicate]
    norm_num
  · simp only [List.length_append, length_PutUint32]
    omega
  · rw [List.append_assoc, BigEndianUint32_PutUint32 _ _ hbound]
    omega

/-- C10: any single frame whose payload length `N` satisfies `N + 4 > 2^16`
can never fit in the fixed 64 KiB read buffer: `XPipe.Read` terminates with
a nil (success) error without ever invoking the visitor, silently dropping
the frame and every byte after it. -/
theorem C10_oversized_frame_dropped (vis : List Nat → Bool)
    (payload rest : List Nat)
    (hlen : 2 ^ 16 < payload.length + 4) (hbound : payload.length < 2 ^ 32) :
    XPipe.Read false vis ((XPipe.Write false [] [] payload).1 ++ rest) =
      ([], none) :=
  read_oversized vis payload rest hlen hbound

/-- Witness for C10: a frame with a 65533-byte payload (65537 > 65536) is
dropped whole. -/
theorem C10_oversized_frame_dropped_witness :
    XPipe.Read false (fun _ => true)
      ((XPipe.Write false [] [] (List.replicate 65533 0)).1 ++ []) =
      ([], none) :=
  C10_oversized_frame_dropped (fun _ => true) (List.replicate 65533 0) []
    (by rw [List.length_replicate]; norm_num)
    (by rw [List.length_replicate]; norm_num)

theorem BigEndianUint32_append (l t : List Nat) (h : 4 ≤ l.length) :
    BigEndianUint32 (l ++ t) = BigEndianUint32 l := by
  match l with
  | _ :: _ :: _ :: _ :: _ => rfl
  | [] => simp at h
  | [_] => simp at h
  | [_, _] => simp at h
  | [_, _, _] => simp at h

theorem readFrames_frame_step (callback : List Nat → Bool)
    (q tail junk : List Nat) (B2 : buffer)
    (hq : q.length < 2 ^ 32) (hcb : callback q = true)
    (hB2 : B2 = ⟨tail ++
        ((((PutUint32 q.length ++ q) ++ tail) ++ junk).drop tail.length), 0,
        tail.length, 0, 0⟩) :
    readFrames callback
      ⟨((PutUint32 q.length ++ q) ++ tail) ++ junk, 0,
        ((PutUint32 q.length ++ q) ++ tail).length, 0, 0⟩ =
      (q :: (readFrames callback B2).1, (readFrames callback B2).2.1,
        (readFrames callback B2).2.2) := by
  set b : buffer := ⟨((PutUint32 q.length ++ q) ++ tail) ++ junk, 0,
    ((PutUint32 q.length ++ q) ++ tail).length, 0, 0⟩ with hb
  have hI : ((PutUint32 q.length ++ q) ++ tail) ++ junk =
      PutUint32 q.length ++ (q ++ (tail ++ junk)) := by
    simp [List.append_assoc]
  have hI2 : ((PutUint32 q.length ++ q) ++ tail) ++ junk =
      (PutUint32 q.length ++ q) ++ (tail ++ junk) := by
    simp [List.append_assoc]
  have hlenPutq : (PutUint32 q.length ++ q).length = 4 + q.length := by
    simp [length_PutUint32]
  have hw : ((PutUint32 q.length ++ q) ++ tail).length =
      4 + q.length + tail.length := by
    simp [length_PutUint32]
    omega
  have hread : b.ReadableBytes = 4 + q.length + tail.length := by
    simp only [hb, buffer.ReadableBytes, Nat.sub_zero]
    exact hw
  have hSlice4 : b.Slice 4 = PutUint32 q.length := by
    simp only [hb, buffer.Slice, List.drop_zero]
    rw [hI, List.take_left' (length_PutUint32 q.length)]
  have hchunk : BigEndianUint32 (b.Slice 4) = q.length := by
    rw [hSlice4, BigEndianUint32_PutUint32' _ hq]
  have h4 : 4 ≤ b.ReadableBytes := by
    rw [hread]
    omega
  have hch : ¬BigEndianUint32 (b.Slice 4) + 4 > b.ReadableBytes := by
    rw [hchunk, hread]
    omega
  have hpayload : (b.SetReadIndex (b.GetReadIndex + 4)).Slice
      (BigEndianUint32 (b.Slice 4)) = q := by
    rw [hchunk]
    simp only [hb, buffer.SetReadIndex, buffer.GetReadIndex, buffer.Slice,
      Nat.zero_add]
    rw [hI, List.drop_left' (length_PutUint32 q.length), List.take_left' rfl]
  have hcb' : callback ((b.SetReadIndex (b.GetReadIndex + 4)).Slice
      (BigEndianUint32 (b.Slice 4))) = true := by
    rw [hpayload]
    exact hcb
  have harith : 4 + q.length + tail.length - (0 + 4 + q.length) = tail.length := by
    omega
  have hb2 : ((b.SetReadIndex (b.GetReadIndex + 4)).SetReadIndex
      ((b.SetReadIndex (b.GetReadIndex + 4)).GetReadIndex +
        BigEndianUint32 (b.Slice 4))).DiscardReadBytes = B2 := by
    rw [hchunk, hB2]
    simp only [hb, buffer.SetReadIndex, buffer.GetReadIndex,
      buffer.DiscardReadBytes, Nat.zero_add]
    rw [hw]
    have h1 : 4 + q.length + tail.length - (4 + q.length) = tail.length := by
      omega
    rw [h1]
    have hdrop : (((PutUint32 q.length ++ q) ++ tail) ++ junk).drop
        (4 + q.length) = tail ++ junk := by
      rw [hI2, List.drop_left' hlenPutq]
    rw [hdrop, List.take_left' rfl, copyInto_zero]
    rw [List.take_of_length_le (by simp [length_PutUint32]; omega)]
  rw [readFrames_step callback b h4 hch hcb', hpayload, hb2]

/-- A byte sequence that does not yet contain one complete frame: either
fewer than 4 buffered bytes, or the decoded length plus header exceeds what
is buffered. -/
def noFullFrame (data : List Nat) : Prop :=
  data.length < 4 ∨ BigEndianUint32 data + 4 > data.length

theorem readFrames_encoded (qs : List (List Nat)) :
    ∀ (r junk : List Nat),
    (∀ q ∈ qs, q.length < 2 ^ 32) → noFullFrame r →
    ∃ junk2 : List Nat,
      junk2.length = (writtenFrames qs).length + junk.length ∧
      readFrames (fun _ => true)
        ⟨(writtenFrames qs ++ r) ++ junk, 0,
          (writtenFrames qs ++ r).length, 0, 0⟩ =
        (qs, ⟨r ++ junk2, 0, r.length, 0, 0⟩, true) := by
  induction qs with
  | nil =>
    intro r junk hb hnf
    refine ⟨junk, by rw [writtenFrames_nil]; simp, ?_⟩
    rw [writtenFrames_nil]
    simp only [List.nil_append]
    by_cases h4 : 4 ≤ r.length
    · have hbig : BigEndianUint32 r + 4 > r.length := by
        rcases hnf with h | h
        · omega
        · exact h
      refine readFrames_incomplete _ _ ?_ ?_
      · simp only [buffer.ReadableBytes, Nat.sub_zero]
        exact h4
      · simp only [buffer.Slice, buffer.ReadableBytes, List.drop_zero,
          Nat.sub_zero]
        rw [BigEndianUint32_take4, BigEndianUint32_append r junk h4]
        omega
    · exact readFrames_lt4 _ _
        (by simp only [buffer.ReadableBytes, Nat.sub_zero]; omega)
  | cons q qs ih =>
    intro r junk hb hnf
    have hq : q.length < 2 ^ 32 := hb q (List.mem_cons_self _ _)
    have hbufI : (writtenFrames (q :: qs) ++ r) ++ junk =
        ((PutUint32 q.length ++ q) ++ (writtenFrames qs ++ r)) ++ junk := by
      rw [writtenFrames_cons]
      simp [List.append_assoc]
    have hbufw : (writtenFrames (q :: qs) ++ r).length =
        ((PutUint32 q.length ++ q) ++ (writtenFrames qs ++ r)).length := by
      rw [writtenFrames_cons]
      simp [List.append_assoc]
    obtain ⟨junk2, hlen2, hrec⟩ := ih r
      ((((PutUint32 q.length ++ q) ++ (writtenFrames qs ++ r)) ++ junk).drop
        (writtenFrames qs ++ r).length)
      (fun x hx => hb x (List.mem_cons_of_mem _ hx)) hnf
    refine ⟨junk2, ?_, ?_⟩
    · rw [hlen2, writtenFrames_cons]
      simp only [List.length_drop, List.length_append, length_PutUint32]
      omega
    · rw [hbufI, hbufw,
        readFrames_frame_step (fun _ => true) q (writtenFrames qs ++ r) junk _
          hq rfl rfl, hrec]

theorem writtenFrames_split (ps : List (List Nat)) :
    ∀ (pre suf : List Nat),
    pre ++ suf = writtenFrames ps →
    (∀ p ∈ ps, p.length < 2 ^ 32) →
    ∃ qs rs r, ps = qs ++ rs ∧ pre = writtenFrames qs ++ r ∧ noFullFrame r ∧
      r ++ suf = writtenFrames rs := by
  induction ps with
  | nil =>
    intro pre suf h _
    rw [writtenFrames_nil] at h
    obtain ⟨hpre, hsuf⟩ := List.append_eq_nil.mp h
    subst hpre
    subst hsuf
    exact ⟨[], [], [], rfl, by simp [writtenFrames_nil], Or.inl (by simp),
      by simp [writtenFrames_nil]⟩
  | cons p ps ih =>
    intro pre suf h hb
    rw [writtenFrames_cons] at h
    have hp32 : p.length < 2 ^ 32 := hb p (List.mem_cons_self _ _)
    have hPutp : (PutUint32 p.length ++ p).length = 4 + p.length := by
      simp [length_PutUint32]
    by_cases hlen : pre.length < 4 + p.length
    · refine ⟨[], p :: ps, pre, rfl, by rw [writtenFrames_nil]; simp, ?_, ?_⟩
      · by_cases h4 : 4 ≤ pre.length
        · right
          have htake : pre.take 4 = PutUint32 p.length := by
            have h1 : (pre ++ suf).take 4 = pre.take 4 :=
              List.take_append_of_le_length h4
            rw [h, List.append_assoc,
              List.take_left' (length_PutUint32 p.length)] at h1
            exact h1.symm
          have hbeq : BigEndianUint32 pre = p.length := by
            rw [← BigEndianUint32_take4 pre, htake,
              BigEndianUint32_PutUint32' _ hp32]
          omega
        · exact Or.inl (by omega)
      · rw [writtenFrames_cons]
        exact h
    · have h4p : 4 + p.length ≤ pre.length := by omega
      have htake : pre.take (4 + p.length) = PutUint32 p.length ++ p := by
        have h1 : (pre ++ suf).take (4 + p.length) = pre.take (4 + p.length) :=
          List.take_append_of_le_length h4p
        rw [h, List.take_left' hPutp] at h1
        exact h1.symm
      have hdropsplit : pre.drop (4 + p.length) ++ suf = writtenFrames ps := by
        have h2 : (pre ++ suf).drop (4 + p.length) =
            pre.drop (4 + p.length) ++ suf :=
          List.drop_append_of_le_length h4p
        rw [h, List.drop_left' hPutp] at h2
        exact h2.symm
      obtain ⟨qs, rs, r, hps, hpre, hnf, hrest⟩ := ih _ _ hdropsplit
        (fun x hx => hb x (List.mem_cons_of_mem _ hx))
      refine ⟨p :: qs, rs, r, by simp [hps], ?_, hnf, hrest⟩
      conv_lhs => rw [← List.take_append_drop (4 + p.length) pre]
      rw [htake, hpre, writtenFrames_cons]
      simp [List.append_assoc]

theorem copyInto_append (data junk s : List Nat) (h : s.length ≤ junk.length) :
    copyInto (data ++ junk) data.length s =
      (data ++ s) ++ junk.drop s.length := by
  unfold copyInto
  rw [List.take_left, List.length_append]
  have h1 : data.length + junk.length - data.length = junk.length := by omega
  rw [h1, List.take_of_length_le h]
  try rw [List.drop_append]
  try simp [List.append_assoc]

theorem readPump_encoded_empty (ps : List (List Nat)) (data junk : List Nat)
    (hps32 : ∀ p ∈ ps, p.length < 2 ^ 32)
    (henc : data = writtenFrames ps)
    (hnf : noFullFrame data)
    (hcap : data.length + junk.length = 65536) :
    readPump (fun _ => true) ⟨data ++ junk, 0, data.length, 0, 0⟩ [] =
      (ps, some "EOF") := by
  cases ps with
  | nil =>
    rw [writtenFrames_nil] at henc
    subst henc
    have hj : junk.length = 65536 := by simpa using hcap
    exact readPump_eof _ _ (by
      simp only [buffer.GetWriteIndex, List.length_append, List.length_nil,
        Nat.sub_zero, Nat.zero_add]
      omega)
  | cons p ps' =>
    exfalso
    have hp32 : p.length < 2 ^ 32 := hps32 p (List.mem_cons_self _ _)
    rw [writtenFrames_cons] at henc
    have hlen4 : 4 + p.length ≤ data.length := by
      rw [henc]
      simp only [List.length_append, length_PutUint32]
      omega
    have hbeq : BigEndianUint32 data = p.length := by
      rw [henc, List.append_assoc, BigEndianUint32_PutUint32 _ _ hp32]
    rcases hnf with h | h <;> omega

theorem readPump_encoded_aux (N : Nat) : ∀ (stream : List Nat),
    stream.length ≤ N → ∀ (ps : List (List Nat)) (data junk : List Nat),
    (∀ p ∈ ps, p.length + 4 ≤ 65536) →
    data ++ stream = writtenFrames ps →
    noFullFrame data →
    data.length + junk.length = 65536 →
    readPump (fun _ => true) ⟨data ++ junk, 0, data.length, 0, 0⟩ stream =
      (ps, some "EOF") := by
  induction N with
  | zero =>
    intro stream hN ps data junk hbound henc hnf hcap
    have hs : stream = [] := List.eq_nil_of_length_eq_zero (by omega)
    subst hs
    rw [List.append_nil] at henc
    exact readPump_encoded_empty ps data junk
      (fun p hp => by have := hbound p hp; omega) henc hnf hcap
  | succ N ih =>
    intro stream hN ps data junk hbound henc hnf hcap
    have hps32 : ∀ p ∈ ps, p.length < 2 ^ 32 := by
      intro p hp
      have := hbound p hp
      omega
    cases stream with
    | nil =>
      rw [List.append_nil] at henc
      exact readPump_encoded_empty ps data junk hps32 henc hnf hcap
    | cons y ys =>
      have hdata_lt : data.length < 65536 := by
        cases ps with
        | nil =>
          rw [writtenFrames_nil] at henc
          exact absurd henc (by simp)
        | cons p ps' =>
          by_cases hd : data.length < 4 + p.length
          · have := hbound p (List.mem_cons_self _ _)
            omega
          · exfalso
            have hp32 : p.length < 2 ^ 32 := hps32 p (List.mem_cons_self _ _)
            rw [writtenFrames_cons] at henc
            have h4d : 4 ≤ data.length := by omega
            have htake4 : data.take 4 = PutUint32 p.length := by
              have h1 : (data ++ (y :: ys)).take 4 = data.take 4 :=
                List.take_append_of_le_length h4d
              rw [henc, List.append_assoc,
                List.take_left' (length_PutUint32 p.length)] at h1
              exact h1.symm
            have hbeq : BigEndianUint32 data = p.length := by
              rw [← BigEndianUint32_take4 data, htake4,
                BigEndianUint32_PutUint32' _ hp32]
            rcases hnf with h | h <;> omega
      rw [readPump_cons _ _ _ _ (by
        simp only [buffer.GetWriteIndex, List.length_append]
        omega)]
      dsimp only
      simp only [buffer.GetWriteIndex, List.length_append]
      have harith : data.length + junk.length - data.length = junk.length := by
        omega
      rw [harith]
      set n := min junk.length (y :: ys).length with hn
      have hnj : n ≤ junk.length := min_le_left _ _
      have hny : n ≤ (y :: ys).length := min_le_right _ _
      have hn1 : 1 ≤ n := by
        rw [hn]
        exact le_min (by omega) (by simp)
      have hstake_len : ((y :: ys).take n).length = n := by
        rw [List.length_take]
        exact min_eq_left hny
      have hcopy : copyInto (data ++ junk) data.length ((y :: ys).take n) =
          (data ++ (y :: ys).take n) ++ junk.drop ((y :: ys).take n).length :=
        copyInto_append data junk _ (by rw [hstake_len]; exact hnj)
      rw [hcopy, hstake_len]
      have henc2 : (data ++ (y :: ys).take n) ++ (y :: ys).drop n =
          writtenFrames ps := by
        rw [List.append_assoc, List.take_append_drop]
        exact henc
      obtain ⟨qs, rs, r, hps, hpre, hnfr, hrest⟩ :=
        writtenFrames_split ps _ _ henc2 hps32
      have hwix : data.length + n = (writtenFrames qs ++ r).length := by
        rw [← hpre]
        simp [hstake_len]
      rw [hpre, hwix]
      simp only [buffer.SetWriteIndex]
      obtain ⟨junk2, hlen2, hinner⟩ := readFrames_encoded qs r (junk.drop n)
        (fun q hq => hps32 q (by rw [hps]; exact List.mem_append_left _ hq)) hnfr
      rw [hinner]
      have hcap2 : r.length + junk2.length = 65536 := by
        have e1 : (writtenFrames qs ++ r).length = data.length + n := hwix.symm
        simp only [List.length_append] at e1
        simp only [List.length_drop] at hlen2
        omega
      rw [ih ((y :: ys).drop n) (by
          simp only [List.length_drop, List.length_cons]
          simp only [List.length_cons] at hN
          omega) rs r junk2
        (fun p hp => hbound p (by rw [hps]; exact List.mem_append_right _ hp))
        hrest hnfr hcap2]
      rw [hps]
      simp

theorem readPump_encoded (stream : List Nat) (ps : List (List Nat))
    (data junk : List Nat)
    (hbound : ∀ p ∈ ps, p.length + 4 ≤ 65536)
    (henc : data ++ stream = writtenFrames ps)
    (hnf : noFullFrame data)
    (hcap : data.length + junk.length = 65536) :
    readPump (fun _ => true) ⟨data ++ junk, 0, data.length, 0, 0⟩ stream =
      (ps, some "EOF") :=
  readPump_encoded_aux stream.length stream le_rfl ps data junk hbound henc
    hnf hcap

/-- C2 as stated is false: a payload of length 65533 (one frame of
65537 > 2^16 bytes) written through the pipe is never delivered to the
visitor, so the round trip does not produce one invocation carrying it. -/
theorem C2_roundtrip_counterexample :
    (XPipe.Read false (fun _ => true)
        (writtenFrames [List.replicate 65533 0])).1 ≠
      [List.replicate 65533 0] := by
  have hfr : writtenFrames [List.replicate 65533 0] =
      (XPipe.Write false [] [] (List.replicate 65533 0)).1 ++ [] := rfl
  rw [hfr, read_oversized (fun _ => true) (List.replicate 65533 0) []
    (by rw [List.length_replicate]; norm_num)
    (by rw [List.length_replicate]; norm_num)]
  exact fun h => List.noConfusion h

/-- C2 (amended): for payloads that fit the 64 KiB read buffer (length at
most `2^16 - 4`), writing `b1 .. bn` back-to-back through `XPipe.Write` and
reading the concatenated stream with `XPipe.Read` yields exactly `n` visitor
invocations in write order, the `i`-th receiving exactly `b_i`. -/
theorem C2_back_to_back_roundtrip (ps : List (List Nat))
    (hbound : ∀ p ∈ ps, p.length + 4 ≤ 2 ^ 16) :
    XPipe.Read false (fun _ => true) (writtenFrames ps) =
      (ps, some "EOF") := by
  show readPump (fun _ => true) (NewBuffer (2 ^ 16)) (writtenFrames ps) =
    (ps, some "EOF")
  rw [NewBuffer_eq]
  have hb : (⟨List.replicate (2 ^ 16) 0, 0, 0, 0, 0⟩ : buffer) =
      ⟨[] ++ List.replicate (2 ^ 16) 0, 0, ([] : List Nat).length, 0, 0⟩ := rfl
  rw [hb]
  refine readPump_encoded (writtenFrames ps) ps [] (List.replicate (2 ^ 16) 0)
    ?_ ?_ (Or.inl (by simp)) ?_
  · intro p hp
    have := hbound p hp
    omega
  · rw [List.nil_append]
  · rw [List.length_nil, List.length_replicate]
    norm_num

/-- Witness for C2 (amended): the two payloads `[1,2,3]` and `[4,5]` round
trip to exactly two visitor invocations in order. -/
theorem C2_back_to_back_roundtrip_witness :
    XPipe.Read false (fun _ => true) (writtenFrames [[1, 2, 3], [4, 5]]) =
      ([[1, 2, 3], [4, 5]], some "EOF") :=
  C2_back_to_back_roundtrip [[1, 2, 3], [4, 5]] (by decide)

/-- Control-channel message vocabulary (the string constants of the source). -/
def ReadyOK : String := "ReadyOK"

/-- Model of `ReadyError` constant. -/
def ReadyError : String := "ReadyError"

/-- Model of `ExitRequest` constant. -/
def ExitRequest : String := "Exit"

/-- Model of `ExitReply = ExitRequest`. -/
def ExitReply : String := ExitRequest

/-- Observable actions the supervisor performs on the outside world, used to
state where each pipe read/kill/close in the control flow is directed.
Children are identified by the order in which they were spawned. -/
inductive TraceEv where
  | spawned (id : Nat)
  | readinessReadFrom (id : Nat)
  | exitHandshakeWith (id : Nat)
  | killedChild (id : Nat)
  | closedChild (id : Nat)
  | osExit (code : Int)
deriving DecidableEq, Repr

/-- The `Daemon` struct (supervisor state).  `xCmdObj` holds the id of the
currently installed child (`nil` = `none`); `nextPid` numbers spawned
children in order (model bookkeeping for child identity); `exited` records
an `os.Exit` call.  The mutex and wait-group serialize the procedures and
are implicit in the sequential model. -/
structure Daemon where
  rebootTimes : Int
  upgradeFlag : Bool
  killedFlag : Bool
  xCmdObj : Option Nat
  childCmd : String
  upgradeCmd : String
  bootstrapArgs : String
  bootstrapLogDir : String
  pidFile : String
  nextPid : Nat
  exited : Option Int
deriving DecidableEq, Repr

/-- Model of `New`: factory; `rebootTimes` starts at 3, flags clear, no child. -/
def New (childCmd upgradeCmd bootstrapArgs bootstrapLogDir pidFile : String) :
    Daemon :=
  { rebootTimes := 3, upgradeFlag := false, killedFlag := false,
    xCmdObj := none, childCmd := childCmd, upgradeCmd := upgradeCmd,
    bootstrapArgs := bootstrapArgs, bootstrapLogDir := bootstrapLogDir,
    pidFile := pidFile, nextPid := 0, exited := none }

/-- Model of `Default`: `New` with the default flag names and paths. -/
def Default : Daemon :=
  New "child" "upgrade" "bootstrap_args" "bootstrapLogs" "daemonPID"

/-- Environment of one replacement attempt: whether `xCmdObj.Start()`
succeeds, and the frames the new child writes on its child-to-parent pipe
before the readiness decision (the stream ends — EOF — when exhausted). -/
structure ReplaceEnv where
  spawnOk : Bool
  childFrames : List String
deriving DecidableEq, Repr

/-- The readiness callback of `replaceChildProcess` folded over the frames
of the new child's pipe: `ReadyOK` decides ok and stops, `ReadyError`
decides not-ok and stops, anything else is ignored and reading continues;
end of stream is EOF, which `ParentRead` returns as the stored error. -/
def readyScan : List String → Bool × Option String
  | [] => (false, some "EOF")
  | f :: rest =>
    if f = ReadyOK then (true, none)
    else if f = ReadyError then (false, none)
    else readyScan rest

/-- Model of `replaceChildProcess`: spawn a new child, read its readiness frame from
the new child's own child-to-parent pipe (`newXCmdObj.ParentRead`), and only
on `ReadyOK` retire the old child (cooperative `Exit` handshake via
`waitChildSafeExit`, then `Kill`, `wg.Wait`, `Close`) and install the new
one.  On any failure the new child is closed and the current child is left
untouched.  Returns `(ok, err)`, the new state, and the trace of actions. -/
def replaceChildProcess (env : ReplaceEnv) (object : Daemon) :
    (Bool × Option String) × Daemon × List TraceEv :=
  if ¬env.spawnOk then ((false, some "spawn error"), object, [])
  else
    let newId := object.nextPid
    let object1 := { object with nextPid := object.nextPid + 1 }
    let scan := readyScan env.childFrames
    let tr1 := [TraceEv.spawned newId, TraceEv.readinessReadFrom newId]
    if ¬scan.1 then
      ((false, scan.2), object1, tr1 ++ [TraceEv.closedChild newId])
    else
      match object1.xCmdObj with
      | some oldId =>
        ((true, scan.2), { object1 with xCmdObj := some newId },
          tr1 ++ [TraceEv.exitHandshakeWith oldId, TraceEv.killedChild oldId,
            TraceEv.closedChild oldId])
      | none =>
        ((true, scan.2), { object1 with xCmdObj := some newId }, tr1)

/-- The goroutine `replaceChildProcess` installs to `Wait` on the new child,
run at the moment the installed child's exit is observed: a successful
compare-and-swap of `upgradeFlag` 1→0 marks a planned upgrade retirement
(nothing else happens); otherwise, if `killedFlag` is clear the exit is a
crash — `rebootTimes` is decremented, and either the process exits with
status -1 (budget exhausted) or the dead child is released/closed and the
replacement procedure respawns; if `killedFlag` is set, nothing happens. -/
def childWaitHandler (env : ReplaceEnv) (object : Daemon) :
    Daemon × List TraceEv :=
  match object.xCmdObj with
  | none => (object, [])
  | some id =>
    if object.upgradeFlag then
      ({ object with upgradeFlag := false }, [])
    else if ¬object.killedFlag then
      let rt := object.rebootTimes - 1
      if rt < 0 then
        ({ object with rebootTimes := rt, exited := some (-1) },
          [TraceEv.osExit (-1)])
      else
        let object1 := { object with rebootTimes := rt, xCmdObj := none }
        let res := replaceChildProcess env object1
        (res.2.1, TraceEv.closedChild id :: res.2.2)
    else (object, [])

/-- The signals the `Bootstrap` parent loop distinguishes. -/
inductive Signal where
  | sigint
  | sigterm
  | sigusr2
  | other
deriving DecidableEq, Repr

/-- One iteration of the `parentSignalLoop` of `Bootstrap` on receiving a
signal.  Returns the new state, whether the loop keeps running (`false`
means `break parentSignalLoop` or `return`), and the trace.
`SIGINT`/`SIGTERM`: set `killedFlag`, run the `Exit` handshake, kill the
child, and leave the loop.  `SIGUSR2`: try the compare-and-swap of
`upgradeFlag` 0→1 — on failure `return` (leaving the loop); on success run
`replaceChildProcess`, and leave the loop unless it succeeded cleanly. -/
def signalStep (s : Signal) (env : ReplaceEnv) (object : Daemon) :
    Daemon × Bool × List TraceEv :=
  match s with
  | .sigint | .sigterm =>
    let object1 := { object with killedFlag := true }
    let tr := match object1.xCmdObj with
      | some id => [TraceEv.exitHandshakeWith id, TraceEv.killedChild id]
      | none => []
    (object1, false, tr)
  | .sigusr2 =>
    if object.upgradeFlag then (object, false, [])
    else
      let object1 := { object with upgradeFlag := true }
      let res := replaceChildProcess env object1
      if ¬res.1.1 ∨ res.1.2 ≠ none then (res.2.1, false, res.2.2)
      else (res.2.1, true, res.2.2)
  | .other => (object, true, [])

/-- Events the parent observes while the signal loop runs: a signal, or the
wait-goroutine of the installed child firing because the child exited. -/
inductive LoopEv where
  | sig (s : Signal) (env : ReplaceEnv)
  | childExit (env : ReplaceEnv)
deriving DecidableEq, Repr

/-- Run the parent from a state through a sequence of events.  A state whose
process has exited, or whose signal loop has been left, processes no further
events. -/
def run (evs : List LoopEv) (object : Daemon) : Daemon :=
  match evs with
  | [] => object
  | ev :: rest =>
    if object.exited ≠ none then object
    else
      match ev with
      | .sig s env =>
        let r := signalStep s env object
        if r.2.1 then run rest r.1 else r.1
      | .childExit env => run rest (childWaitHandler env object).1

/-- The parent path of `Bootstrap` up to installing the first child: parse
`reboot_times` (default 3), record `origArgs`, write the PID file, bind the
listeners, and run the replacement procedure for the cold-boot spawn. -/
def bootstrapParentStart (rebootTimesFlag : Int) (env : ReplaceEnv)
    (object : Daemon) : (Bool × Option String) × Daemon × List TraceEv :=
  replaceChildProcess env { object with rebootTimes := rebootTimesFlag }

/-- The default of the `reboot_times` flag in `Bootstrap`. -/
def rebootTimesFlagDefault : Int := 3

theorem replace_rebootTimes (env : ReplaceEnv) (st : Daemon) :
    (replaceChildProcess env st).2.1.rebootTimes = st.rebootTimes := by
  unfold replaceChildProcess
  split
  · rfl
  · dsimp only
    split
    · rfl
    · split <;> rfl

theorem replace_nextPid_ge (env : ReplaceEnv) (st : Daemon) :
    st.nextPid ≤ (replaceChildProcess env st).2.1.nextPid := by
  unfold replaceChildProcess
  split
  · exact le_rfl
  · dsimp only
    split
    · exact Nat.le_succ _
    · split <;> exact Nat.le_succ _

theorem replace_ready_mem (env : ReplaceEnv) (st : Daemon) (i : Nat)
    (h : TraceEv.readinessReadFrom i ∈ (replaceChildProcess env st).2.2) :
    i = st.nextPid := by
  unfold replaceChildProcess at h
  split at h
  · simp at h
  · dsimp only at h
    split at h
    · simp at h
      exact h
    · split at h <;> simp at h <;> exact h

/-- C3: in every execution of the replacement procedure — the cold-boot
spawn of `Bootstrap` and the `SIGUSR2` upgrade path alike — the
`ReadyOK`/`ReadyError` readiness frame is read from the newly spawned
child's child-to-parent pipe (`newXCmdObj.ParentRead`), never from the
previously installed child's pipe. -/
theorem C3_ready_read_from_new_child (env : ReplaceEnv) (st : Daemon) :
    (∀ i, TraceEv.readinessReadFrom i ∈ (replaceChildProcess env st).2.2 →
      i = st.nextPid) ∧
    (∀ i old, st.xCmdObj = some old → old < st.nextPid →
      TraceEv.readinessReadFrom i ∈ (replaceChildProcess env st).2.2 →
      i ≠ old) ∧
    (∀ i rt, TraceEv.readinessReadFrom i ∈
        (bootstrapParentStart rt env st).2.2 → i = st.nextPid) ∧
    (∀ i, st.upgradeFlag = false →
      TraceEv.readinessReadFrom i ∈ (signalStep .sigusr2 env st).2.2 →
      i = st.nextPid) ∧
    (∀ i old, st.xCmdObj = some old → old < st.nextPid →
      st.upgradeFlag = false →
      TraceEv.readinessReadFrom i ∈ (signalStep .sigusr2 env st).2.2 →
      i ≠ old) := by
  have hsig : ∀ i, st.upgradeFlag = false →
      TraceEv.readinessReadFrom i ∈ (signalStep .sigusr2 env st).2.2 →
      i = st.nextPid := by
    intro i hup h
    unfold signalStep at h
    rw [if_neg (by rw [hup]; exact Bool.false_ne_true)] at h
    dsimp only at h
    split at h <;>
      exact replace_ready_mem env { st with upgradeFlag := true } i
        (by simpa using h)
  refine ⟨fun i h => replace_ready_mem env st i h, ?_, ?_, hsig, ?_⟩
  · intro i old hold hlt h
    have := replace_ready_mem env st i h
    omega
  · intro i rt h
    unfold bootstrapParentStart at h
    exact replace_ready_mem env { st with rebootTimes := rt } i h
  · intro i old hold hlt hup h
    have := hsig i hup h
    omega

/-- Witness for C3: with child 0 installed and the next child numbered 1,
the readiness read of a replacement targets child 1, not child 0. -/
def sampleParent : Daemon :=
  ⟨3, false, false, some 0, "child", "upgrade", "bootstrap_args",
    "bootstrapLogs", "daemonPID", 1, none⟩

theorem C3_ready_read_from_new_child_witness :
    TraceEv.readinessReadFrom 1 ∈
      (replaceChildProcess ⟨true, [ReadyOK]⟩ sampleParent).2.2 ∧
    (1 : Nat) ≠ 0 :=
  ⟨by decide,
    (C3_ready_read_from_new_child ⟨true, [ReadyOK]⟩ sampleParent).2.1 1 0
      (by decide) (by decide) (by decide)⟩

theorem signalStep_rebootTimes (s : Signal) (env : ReplaceEnv) (st : Daemon) :
    (signalStep s env st).1.rebootTimes = st.rebootTimes := by
  cases s with
  | sigint => rfl
  | sigterm => rfl
  | other => rfl
  | sigusr2 =>
    show (if st.upgradeFlag = true then (st, false, ([] : List TraceEv))
      else
        let object1 := { st with upgradeFlag := true }
        let res := replaceChildProcess env object1
        if ¬res.1.1 = true ∨ res.1.2 ≠ none then (res.2.1, false, res.2.2)
        else (res.2.1, true, res.2.2)).1.rebootTimes = st.rebootTimes
    split
    · rfl
    · dsimp only
      split <;>
        exact replace_rebootTimes env { st with upgradeFlag := true }

theorem childWait_rebootTimes_le (env : ReplaceEnv) (st : Daemon) :
    (childWaitHandler env st).1.rebootTimes ≤ st.rebootTimes := by
  unfold childWaitHandler
  split
  · exact le_rfl
  · split
    · exact le_rfl
    · split
      · dsimp only
        split
        · dsimp only
          omega
        · dsimp only
          rw [replace_rebootTimes]
          dsimp only
          omega
      · exact le_rfl

theorem run_rebootTimes_le (evs : List LoopEv) :
    ∀ st : Daemon, (run evs st).rebootTimes ≤ st.rebootTimes := by
  induction evs with
  | nil => intro st; exact le_rfl
  | cons ev rest ih =>
    intro st
    unfold run
    split
    · exact le_rfl
    · match ev with
      | .sig s env =>
        dsimp only
        split
        · calc (run rest (signalStep s env st).1).rebootTimes
              ≤ (signalStep s env st).1.rebootTimes := ih _
            _ = st.rebootTimes := signalStep_rebootTimes s env st
        · rw [signalStep_rebootTimes]
      | .childExit env =>
        dsimp only
        calc (run rest (childWaitHandler env st).1).rebootTimes
            ≤ (childWaitHandler env st).1.rebootTimes := ih _
          _ ≤ st.rebootTimes := childWait_rebootTimes_le env st

theorem run_append_rebootTimes_le (evs1 : List LoopEv) :
    ∀ (evs2 : List LoopEv) (st : Daemon),
    (run (evs1 ++ evs2) st).rebootTimes ≤ (run evs1 st).rebootTimes := by
  induction evs1 with
  | nil =>
    intro evs2 st
    exact run_rebootTimes_le evs2 st
  | cons ev rest ih =>
    intro evs2 st
    rw [List.cons_append]
    unfold run
    split
    · exact le_rfl
    · match ev with
      | .sig s env =>
        dsimp only
        split
        · exact ih evs2 _
        · exact le_rfl
      | .childExit env => exact ih evs2 _

/-- C4: the reboot budget starts at 3 (both in `New` and as the
`reboot_times` flag default); along any run of the parent its observed
values are non-increasing; it is decremented (by exactly one) precisely when
an installed child's exit is handled with the `upgradeFlag` CAS failing and
`killedFlag` clear, and is otherwise unchanged (signal handling alone never
changes it); and when the decrement drives it below zero the parent process
exits with the non-zero status -1. -/
theorem C4_reboot_budget (a b c d e : String) (s : Signal) (env : ReplaceEnv)
    (st : Daemon) (evs1 evs2 : List LoopEv) :
    (New a b c d e).rebootTimes = 3 ∧
    rebootTimesFlagDefault = 3 ∧
    (run (evs1 ++ evs2) st).rebootTimes ≤ (run evs1 st).rebootTimes ∧
    (signalStep s env st).1.rebootTimes = st.rebootTimes ∧
    (st.xCmdObj ≠ none → st.upgradeFlag = false → st.killedFlag = false →
      (childWaitHandler env st).1.rebootTimes = st.rebootTimes - 1) ∧
    (st.upgradeFlag = true ∨ st.killedFlag = true →
      (childWaitHandler env st).1.rebootTimes = st.rebootTimes) ∧
    (st.xCmdObj = none → childWaitHandler env st = (st, [])) ∧
    (st.xCmdObj ≠ none → st.upgradeFlag = false → st.killedFlag = false →
      st.rebootTimes - 1 < 0 →
      (childWaitHandler env st).1.exited = some (-1) ∧ (-1 : Int) ≠ 0) := by
  refine ⟨rfl, rfl, run_append_rebootTimes_le evs1 evs2 st,
    signalStep_rebootTimes s env st, ?_, ?_, ?_, ?_⟩
  · intro hx hup hk
    obtain ⟨id, hxc⟩ : ∃ id, st.xCmdObj = some id := by
      cases h : st.xCmdObj with
      | none => exact absurd h hx
      | some v => exact ⟨v, rfl⟩
    unfold childWaitHandler
    rw [hxc]
    dsimp only
    rw [if_neg (by rw [hup]; exact Bool.false_ne_true),
      if_pos (by rw [hk]; simp)]
    split
    · rfl
    · dsimp only
      exact replace_rebootTimes env _
  · intro hor
    unfold childWaitHandler
    cases hxc : st.xCmdObj with
    | none => rfl
    | some id =>
      dsimp only
      rcases hor with h | h
      · rw [if_pos h]
      · by_cases hup : st.upgradeFlag = true
        · rw [if_pos hup]
        · rw [if_neg hup, if_neg (by rw [h]; simp)]
  · intro hx
    unfold childWaitHandler
    rw [hx]
  · intro hx hup hk hneg
    obtain ⟨id, hxc⟩ : ∃ id, st.xCmdObj = some id := by
      cases h : st.xCmdObj with
      | none => exact absurd h hx
      | some v => exact ⟨v, rfl⟩
    unfold childWaitHandler
    rw [hxc]
    dsimp only
    rw [if_neg (by rw [hup]; exact Bool.false_ne_true),
      if_pos (by rw [hk]; simp), if_pos hneg]
    exact ⟨rfl, by decide⟩

/-- Witness for C4: with budget 0, a crash exit decrements to -1 and the
parent exits with status -1. -/
def sampleExhausted : Daemon :=
  ⟨0, false, false, some 0, "child", "upgrade", "bootstrap_args",
    "bootstrapLogs", "daemonPID", 1, none⟩

theorem C4_reboot_budget_witness :
    (New "child" "upgrade" "bootstrap_args" "bootstrapLogs"
        "daemonPID").rebootTimes = 3 ∧
    (childWaitHandler ⟨true, [ReadyOK]⟩ sampleExhausted).1.rebootTimes =
      sampleExhausted.rebootTimes - 1 ∧
    (childWaitHandler ⟨true, [ReadyOK]⟩ sampleExhausted).1.exited =
      some (-1) :=
  ⟨(C4_reboot_budget "child" "upgrade" "bootstrap_args" "bootstrapLogs"
      "daemonPID" Signal.other ⟨true, [ReadyOK]⟩ sampleExhausted [] []).1,
   (C4_reboot_budget "child" "upgrade" "bootstrap_args" "bootstrapLogs"
      "daemonPID" Signal.other ⟨true, [ReadyOK]⟩ sampleExhausted [] []).2.2.2.2.1
     (by decide) (by decide) (by decide),
   ((C4_reboot_budget "child" "upgrade" "bootstrap_args" "bootstrapLogs"
      "daemonPID" Signal.other ⟨true, [ReadyOK]⟩ sampleExhausted [] []).2.2.2.2.2.2.2
     (by decide) (by decide) (by decide) (by decide)).1⟩

theorem signalStep_sigusr2 (env : ReplaceEnv) (st : Daemon) :
    signalStep .sigusr2 env st =
      (if st.upgradeFlag = true then (st, false, ([] : List TraceEv))
       else
         let res := replaceChildProcess env { st with upgradeFlag := true }
         if ¬res.1.1 = true ∨ res.1.2 ≠ none then (res.2.1, false, res.2.2)
         else (res.2.1, true, res.2.2)) := rfl

/-- C5 as stated is false: when the readiness protocol fails during a
`SIGUSR2` upgrade, the parent does not keep running its signal loop — the
branch executes `break parentSignalLoop`, so the loop reports no
continuation (the previous child is merely left behind, unsupervised). -/
theorem C5_keeps_running_counterexample :
    (readyScan [ReadyError]).1 = false ∧
    (signalStep Signal.sigusr2 ⟨true, [ReadyError]⟩ sampleParent).2.1 ≠
      true := by
  decide

/-- C5 (amended): if the replacement procedure does not receive `ReadyOK`
(`ReadyError`, EOF, or any failure before a decision), the new child is
closed and discarded, and the currently installed child is untouched — not
signaled, not killed, not closed, and still the current child; on a
`SIGUSR2` upgrade this failure makes the signal loop exit (Bootstrap
returns) with the previous child still installed, rather than continuing to
supervise it. -/
theorem C5_ready_failure_keeps_old_child (env : ReplaceEnv) (st : Daemon)
    (hspawn : env.spawnOk = true)
    (hfail : (readyScan env.childFrames).1 = false) :
    (replaceChildProcess env st).1.1 = false ∧
    (replaceChildProcess env st).2.1.xCmdObj = st.xCmdObj ∧
    TraceEv.closedChild st.nextPid ∈ (replaceChildProcess env st).2.2 ∧
    (∀ old, st.xCmdObj = some old → old < st.nextPid →
      TraceEv.killedChild old ∉ (replaceChildProcess env st).2.2 ∧
      TraceEv.exitHandshakeWith old ∉ (replaceChildProcess env st).2.2 ∧
      TraceEv.closedChild old ∉ (replaceChildProcess env st).2.2) ∧
    (st.upgradeFlag = false →
      (signalStep .sigusr2 env st).2.1 = false ∧
      (signalStep .sigusr2 env st).1.xCmdObj = st.xCmdObj) := by
  have hrepl : ∀ st' : Daemon, replaceChildProcess env st' =
      ((false, (readyScan env.childFrames).2),
        { st' with nextPid := st'.nextPid + 1 },
        [TraceEv.spawned st'.nextPid, TraceEv.readinessReadFrom st'.nextPid,
          TraceEv.closedChild st'.nextPid]) := by
    intro st'
    unfold replaceChildProcess
    rw [if_neg (by rw [hspawn]; simp)]
    dsimp only
    rw [if_pos (by rw [hfail]; simp)]
    rfl
  refine ⟨?_, ?_, ?_, ?_, ?_⟩
  · rw [hrepl st]
  · rw [hrepl st]
  · rw [hrepl st]
    simp
  · intro old hold hlt
    rw [hrepl st]
    refine ⟨?_, ?_, ?_⟩ <;> simp <;> omega
  · intro hup
    rw [signalStep_sigusr2, if_neg (by rw [hup]; simp), hrepl _]
    dsimp only
    rw [if_pos (Or.inl (by simp))]
    exact ⟨rfl, rfl⟩

/-- Witness for C5 (amended): child 0 installed, the new child 1 reports
`ReadyError`; the current child stays installed and the loop exits. -/
theorem C5_ready_failure_keeps_old_child_witness :
    (replaceChildProcess ⟨true, [ReadyError]⟩ sampleParent).2.1.xCmdObj =
      sampleParent.xCmdObj ∧
    TraceEv.killedChild 0 ∉
      (replaceChildProcess ⟨true, [ReadyError]⟩ sampleParent).2.2 ∧
    (signalStep .sigusr2 ⟨true, [ReadyError]⟩ sampleParent).2.1 = false :=
  ⟨(C5_ready_failure_keeps_old_child ⟨true, [ReadyError]⟩ sampleParent
      rfl (by decide)).2.1,
   ((C5_ready_failure_keeps_old_child ⟨true, [ReadyError]⟩ sampleParent
      rfl (by decide)).2.2.2.1 0 (by decide) (by decide)).1,
   ((C5_ready_failure_keeps_old_child ⟨true, [ReadyError]⟩ sampleParent
      rfl (by decide)).2.2.2.2 (by decide)).1⟩

/-- A parent state with an upgrade already in flight (`upgradeFlag = 1`). -/
def sampleUpgrading : Daemon :=
  ⟨3, true, false, some 0, "child", "upgrade", "bootstrap_args",
    "bootstrapLogs", "daemonPID", 1, none⟩

/-- C6 as stated is false: when `SIGUSR2` arrives with `upgradeFlag` already
1, the failed compare-and-swap executes `return`, which terminates the
signal loop (Bootstrap returns) instead of continuing to run it. -/
theorem C6_loop_continues_counterexample :
    (signalStep Signal.sigusr2 ⟨true, [ReadyOK]⟩ sampleUpgrading).2.1 ≠
      true := by
  decide

/-- C6 (amended): when `SIGUSR2` arrives while `upgradeFlag` is already 1,
the compare-and-swap from 0 to 1 fails, no replacement procedure is started,
the state (including `upgradeFlag`) is unchanged, the request is dropped
silently (no actions traced) — and `Bootstrap` returns: the signal loop
terminates rather than continuing. -/
theorem C6_upgrade_in_flight_dropped (env : ReplaceEnv) (st : Daemon)
    (h : st.upgradeFlag = true) :
    signalStep .sigusr2 env st = (st, false, []) := by
  rw [signalStep_sigusr2, if_pos h]

/-- Witness for C6 at a concrete in-flight-upgrade state. -/
theorem C6_upgrade_in_flight_dropped_witness :
    signalStep .sigusr2 ⟨true, [ReadyOK]⟩ sampleUpgrading =
      (sampleUpgrading, false, []) :=
  C6_upgrade_in_flight_dropped ⟨true, [ReadyOK]⟩ sampleUpgrading rfl

end daemon
